import Mathlib

set_option maxRecDepth 4000

/-!
Shallow embedding of the letterskull front end (TypeScript) in Lean 4,
together with proofs about its core logic.

Sources embedded here:
- src/unnamed/part_000 : skull gallery page — token-URI decoder
  (decodeBase64ToString, parseTokenUriToSvg), pagination (fetchMintedCount,
  loadMore), gallery merge, and the sheet compositor
  (downloadVisibleSheetPng).
- src/unnamed/part_001 : the /api/get-nfts POST route —
  parseAlchemyTokenIdToDecimal and the request/response contract.
- src/unnamed/part_002 : the mint page — hydrateSkulls reconciliation,
  mintableCount, and the minted/mintable classification.

JavaScript strings are modelled as Lean `String` (a list of characters);
JS string primitives used by the code (startsWith, slice, trim) are given
explicit char-list models.  JS `bigint` values are modelled as `Nat`
(token ids are non-negative), and host builtins (atob, decodeURIComponent,
BigInt, JSON.parse) are modelled explicitly where the code's behaviour
depends on them, as documented on each definition.
-/

namespace LetterSkull

/-- Model of JS `s.startsWith(pre)`: char-list prefix test. -/
def jsStartsWith (s pre : String) : Bool :=
  pre.data.isPrefixOf s.data

/-- Model of JS `s.slice(n)` (drop the first `n` characters). -/
def jsSliceFrom (s : String) (n : Nat) : String :=
  String.mk (s.data.drop n)

/-- JS whitespace test used by `String.prototype.trim` (ASCII part). -/
def jsIsWhitespace (c : Char) : Bool :=
  c = ' ' || c = '\t' || c = '\n' || c = '\r' || c = '\x0b' || c = '\x0c'

/-- Model of JS `s.trim()`: strip leading and trailing whitespace. -/
def jsTrim (s : String) : String :=
  String.mk (((s.data.dropWhile jsIsWhitespace).reverse.dropWhile jsIsWhitespace).reverse)

/-! ## Base64 (the standard alphabet used by `atob`/`btoa`) -/

/-- Character of the standard base64 alphabet for a sextet `n < 64`. -/
def b64EncChar (n : Nat) : Char :=
  if n < 26 then Char.ofNat (65 + n)
  else if n < 52 then Char.ofNat (97 + (n - 26))
  else if n < 62 then Char.ofNat (48 + (n - 52))
  else if n = 62 then '+'
  else '/'

/-- Sextet value of a standard-base64 alphabet character, `none` otherwise. -/
def b64DecChar (c : Char) : Option Nat :=
  if 65 ≤ c.toNat ∧ c.toNat ≤ 90 then some (c.toNat - 65)
  else if 97 ≤ c.toNat ∧ c.toNat ≤ 122 then some (c.toNat - 97 + 26)
  else if 48 ≤ c.toNat ∧ c.toNat ≤ 57 then some (c.toNat - 48 + 52)
  else if c.toNat = 43 then some 62
  else if c.toNat = 47 then some 63
  else none

/-- Standard base64 encoding of a byte list (the encoding `btoa` produces:
groups of 3 bytes become 4 alphabet characters, with `=` padding). -/
def b64EncodeGo : List Nat → List Char
  | [] => []
  | [b0] => [b64EncChar (b0 / 4), b64EncChar (b0 % 4 * 16), '=', '=']
  | [b0, b1] => [b64EncChar (b0 / 4), b64EncChar (b0 % 4 * 16 + b1 / 16),
      b64EncChar (b1 % 16 * 4), '=']
  | b0 :: b1 :: b2 :: rest =>
    b64EncChar (b0 / 4) :: b64EncChar (b0 % 4 * 16 + b1 / 16) ::
      b64EncChar (b1 % 16 * 4 + b2 / 64) :: b64EncChar (b2 % 64) :: b64EncodeGo rest

/-- Standard base64 encoding of a byte list, as a string. -/
def b64Encode (bs : List Nat) : String := String.mk (b64EncodeGo bs)

/-- Model of the host builtin `atob` on canonical padded base64 text: each
4-character group yields 3 bytes, a final `xx==` group one byte and a final
`xxx=` group two bytes.  (The browser's forgiving-base64 also strips
whitespace and accepts unpadded input; this code only feeds `atob` output of
canonical encoders, on which the two agree.)  Returns the decoded bytes
(`atob`'s binary string, one character per byte), or `none` where `atob`
throws. -/
def atobGo : List Char → Option (List Nat)
  | [] => some []
  | c0 :: c1 :: c2 :: c3 :: rest =>
    match b64DecChar c0, b64DecChar c1 with
    | some s0, some s1 =>
      if c2 = '=' then
        if c3 = '=' ∧ rest = [] then some [s0 * 4 + s1 / 16] else none
      else
        match b64DecChar c2 with
        | some s2 =>
          if c3 = '=' then
            if rest = [] then some [s0 * 4 + s1 / 16, s1 % 16 * 16 + s2 / 4] else none
          else
            match b64DecChar c3 with
            | some s3 =>
              match atobGo rest with
              | some bs => some ((s0 * 4 + s1 / 16) :: (s1 % 16 * 16 + s2 / 4) ::
                  (s2 % 4 * 64 + s3) :: bs)
              | none => none
            | none => none
        | none => none
    | _, _ => none
  | _ => none

/-- Model of the host builtin `atob` (see `atobGo`). -/
def atobModel (s : String) : Option (List Nat) := atobGo s.data

/-! ## Percent escapes and UTF-8 -/

/-- Lowercase hex digit for `n < 16`: what JS `n.toString(16)` emits. -/
def hexDigitChar (n : Nat) : Char :=
  if n < 10 then Char.ofNat (48 + n) else Char.ofNat (87 + n)

/-- Value of a hex digit character (either case), `none` otherwise. -/
def hexVal (c : Char) : Option Nat :=
  if 48 ≤ c.toNat ∧ c.toNat ≤ 57 then some (c.toNat - 48)
  else if 97 ≤ c.toNat ∧ c.toNat ≤ 102 then some (c.toNat - 97 + 10)
  else if 65 ≤ c.toNat ∧ c.toNat ≤ 70 then some (c.toNat - 65 + 10)
  else none

/-- The percent-escape string built in `decodeBase64ToString`
(src/unnamed/part_000 lines 45-47): every byte becomes a 2-digit lowercase
hex escape, via `c.charCodeAt(0).toString(16).padStart(2, "0")`. -/
def percentEncodeBytes (bs : List Nat) : List Char :=
  (bs.map (fun b => ['%', hexDigitChar (b / 16), hexDigitChar (b % 16)])).flatten

/-- Percent-escape parsing: a sequence of `%hh` escapes to bytes.  `none`
models `decodeURIComponent` throwing `URIError` on malformed input. -/
def percentDecode : List Char → Option (List Nat)
  | [] => some []
  | '%' :: h1 :: h2 :: rest =>
    match hexVal h1, hexVal h2 with
    | some d1, some d2 =>
      match percentDecode rest with
      | some bs => some ((d1 * 16 + d2) :: bs)
      | none => none
    | _, _ => none
  | _ => none

/-- UTF-8 encoding of a Unicode scalar value (code point). -/
def utf8EncodeChar (n : Nat) : List Nat :=
  if n < 128 then [n]
  else if n < 2048 then [192 + n / 64, 128 + n % 64]
  else if n < 65536 then [224 + n / 4096, 128 + n / 64 % 64, 128 + n % 64]
  else [240 + n / 262144, 128 + n / 4096 % 64, 128 + n / 64 % 64, 128 + n % 64]

/-- UTF-8 bytes of a string. -/
def utf8Encode (s : String) : List Nat :=
  (s.data.map (fun c => utf8EncodeChar c.toNat)).flatten

/-- One step of strict UTF-8 decoding: given a lead byte and the remaining
bytes, produce the decoded code point and the rest, rejecting stray
continuation bytes, overlong forms, surrogates and out-of-range code points
(as `decodeURIComponent` does). -/
def utf8DecodeStep (b0 : Nat) (rest : List Nat) : Option (Nat × List Nat) :=
  if b0 < 128 then some (b0, rest)
  else if b0 < 194 then none
  else if b0 < 224 then
    match rest with
    | b1 :: rest1 =>
      if 128 ≤ b1 ∧ b1 < 192 then some ((b0 - 192) * 64 + (b1 - 128), rest1) else none
    | [] => none
  else if b0 < 240 then
    match rest with
    | b1 :: b2 :: rest2 =>
      if 128 ≤ b1 ∧ b1 < 192 ∧ 128 ≤ b2 ∧ b2 < 192 then
        if (b0 - 224) * 4096 + (b1 - 128) * 64 + (b2 - 128) < 2048 ∨
            (55296 ≤ (b0 - 224) * 4096 + (b1 - 128) * 64 + (b2 - 128) ∧
             (b0 - 224) * 4096 + (b1 - 128) * 64 + (b2 - 128) < 57344) then none
        else some ((b0 - 224) * 4096 + (b1 - 128) * 64 + (b2 - 128), rest2)
      else none
    | _ => none
  else if b0 < 245 then
    match rest with
    | b1 :: b2 :: b3 :: rest3 =>
      if 128 ≤ b1 ∧ b1 < 192 ∧ 128 ≤ b2 ∧ b2 < 192 ∧ 128 ≤ b3 ∧ b3 < 192 then
        if (b0 - 240) * 262144 + (b1 - 128) * 4096 + (b2 - 128) * 64 + (b3 - 128) < 65536 ∨
            1114112 ≤ (b0 - 240) * 262144 + (b1 - 128) * 4096 + (b2 - 128) * 64 + (b3 - 128)
        then none
        else some ((b0 - 240) * 262144 + (b1 - 128) * 4096 + (b2 - 128) * 64 + (b3 - 128), rest3)
      else none
    | _ => none
  else none

/-- Strict UTF-8 decoding, iterating `utf8DecodeStep`; the fuel argument
only serves termination and one unit is spent per decoded character, so any
fuel of at least the byte count is enough (each character consumes at least
one byte). -/
def utf8DecodeLoop : Nat → List Nat → Option (List Char)
  | _, [] => some []
  | 0, _ :: _ => none
  | fuel + 1, b0 :: rest =>
    match utf8DecodeStep b0 rest with
    | some (cp, rest2) => (utf8DecodeLoop fuel rest2).map (fun cs => Char.ofNat cp :: cs)
    | none => none

/-- Strict UTF-8 decoding of a byte list; `none` models a `URIError`. -/
def utf8DecodeGo (bs : List Nat) : Option (List Char) :=
  utf8DecodeLoop bs.length bs

/-- Model of the host builtin `decodeURIComponent`, restricted to the fully
percent-escaped strings `decodeBase64ToString` feeds it: parse the `%hh`
escapes to bytes and UTF-8-decode those bytes; `none` models `URIError`. -/
def decodeURIComponentModel (chars : List Char) : Option String :=
  (percentDecode chars).bind (fun bs => (utf8DecodeGo bs).map (fun cs => String.mk cs))

/-- Embeds `decodeBase64ToString` (src/unnamed/part_000 lines 43-49, same
definition in src/apps/web/lib/web3.ts): `atob`, then map each byte of the
binary string to a 2-digit hex percent escape, then `decodeURIComponent`.
`none` models the JS function throwing. -/
def decodeBase64ToString (b64 : String) : Option String :=
  (atobModel b64).bind (fun bin => decodeURIComponentModel (percentEncodeBytes bin))

/-! ## parseTokenUriToSvg -/

/-- A JSON value as observed by `typeof parsed.image === "string"`:
either a string or anything else. -/
inductive JsVal where
  | jstr (s : String)
  | jother
deriving DecidableEq

/-- The shape the code reads off `JSON.parse`'s result: an optional `image`
field (absent when the parsed value is not an object or has no such field). -/
structure ParsedMeta where
  image : Option JsVal
deriving DecidableEq

/-- Embeds `parseTokenUriToSvg` (src/unnamed/part_000 lines 51-69, same
definition in src/apps/web/lib/web3.ts).  The host `JSON.parse` is passed in
as `jsonParse` (an `Except`, since it can throw); `Except.error` models the
JS function throwing, `Except.ok none` the `null` returns. -/
def parseTokenUriToSvg (jsonParse : String → Except String ParsedMeta)
    (tokenUri : String) : Except String (Option String) :=
  if jsStartsWith tokenUri "data:application/json;base64," then
    match decodeBase64ToString (jsSliceFrom tokenUri 29) with
    | none => Except.error "InvalidCharacterError"
    | some jsonStr =>
      match jsonParse jsonStr with
      | Except.error e => Except.error e
      | Except.ok parsed =>
        match parsed.image with
        | some (JsVal.jstr image) =>
          if jsStartsWith image "data:image/svg+xml;base64," then
            match decodeBase64ToString (jsSliceFrom image 26) with
            | some svg => Except.ok (some svg)
            | none => Except.error "InvalidCharacterError"
          else Except.ok none
        | _ => Except.ok none
  else Except.ok none

/-! ## Gallery page (src/unnamed/part_000): items, pagination, merge -/

/-- The `SkullItem` record of src/unnamed/part_000 lines 32-37
(`tokenId : bigint` modelled as `Nat`). -/
structure SkullItem where
  tokenId : Nat
  svg : Option String := none
  loading : Bool
  error : Option String := none
deriving DecidableEq

/-- Supply derivation in `fetchMintedCount` (src/unnamed/part_000 line 194):
`nextTokenId > ZERO ? nextTokenId - BigInt(1) : ZERO`. -/
def deriveSupply (nextTokenId : Nat) : Nat :=
  if 0 < nextTokenId then nextTokenId - 1 else 0

/-- The fixed page size of the gallery loader (src/unnamed/part_000
line 158: `useState(80)` with no setter ever used). -/
def pageSize : Nat := 80

/-- The id loop of `loadMore` (src/unnamed/part_000 lines 207-208):
`for (let i = start; i <= end; i++) batchTokenIds.push(BigInt(i))`. -/
def batchIdsFromTo (start stop : Nat) : List Nat :=
  List.range' start (stop + 1 - start)

/-- The batch of token ids one `loadMore` call requests
(src/unnamed/part_000 lines 200-208): empty when the watermark `loaded` has
reached `maxToLoad`, otherwise the contiguous ids
`loaded+1 .. min (loaded+pageSize) maxToLoad`. -/
def loadMoreBatch (loaded maxToLoad : Nat) : List Nat :=
  if maxToLoad ≤ loaded then []
  else batchIdsFromTo (loaded + 1) (min (loaded + pageSize) maxToLoad)

/-- The watermark after one `loadMore` call (src/unnamed/part_000 line 214:
`setLoaded(end)`, not reached when the guard at line 202 returns early). -/
def loadMoreWatermark (loaded maxToLoad : Nat) : Nat :=
  if maxToLoad ≤ loaded then loaded
  else min (loaded + pageSize) maxToLoad

/-- The pending placeholder `loadMore` inserts optimistically for each
batch id (src/unnamed/part_000 line 212): `{ tokenId: id, loading: true }`. -/
def pendingItem (id : Nat) : SkullItem :=
  { tokenId := id, loading := true }

/-- One `map.set(key, value)` step on a JS `Map` modelled as an association
list in insertion order: setting an existing key replaces its value in
place, a new key is appended. -/
def jsMapSet {α : Type} (m : List (Nat × α)) (k : Nat) (v : α) : List (Nat × α) :=
  if k ∈ m.map Prod.fst then m.map (fun p => if p.1 = k then (k, v) else p)
  else m ++ [(k, v)]

/-- The item sort of the gallery merge (src/unnamed/part_000 line 239):
`.sort((a, b) => (a.tokenId < b.tokenId ? -1 : 1))`.  Modelled as a merge
sort by `tokenId ≤ tokenId`; on lists whose token ids are pairwise distinct
— the only lists the merge step produces, since they are the values of a
keyed map — this agrees with the JS comparator. -/
def sortItems (l : List SkullItem) : List SkullItem :=
  l.mergeSort (fun a b => a.tokenId ≤ b.tokenId)

/-- The merge step of `loadMore` (src/unnamed/part_000 lines 235-240):
build a `Map` keyed by token id from the previous items then the page
results (so a result for an id already present supersedes it), and sort the
map's values ascending by token id. -/
def mergeStep (prev results : List SkullItem) : List SkullItem :=
  sortItems
    ((results.foldl (fun m r => jsMapSet m r.tokenId r)
      (prev.foldl (fun m p => jsMapSet m p.tokenId p) [])).map Prod.snd)

/-! ## Sheet compositor (src/unnamed/part_000 lines 98-146) -/

/-- Canvas geometry produced by `downloadVisibleSheetPng`: the canvas size
and, per input tile in order, the destination rectangle (x, y, w, h) of its
`ctx.drawImage` call. -/
structure SheetLayout where
  width : Nat
  height : Nat
  placements : List (Nat × Nat × Nat × Nat)
deriving DecidableEq

/-- Embeds the geometry of `downloadVisibleSheetPng` (src/unnamed/part_000
lines 98-146) for `n` input tiles: `none` models the early return on an
empty input (line 106); `rows = Math.ceil(n / cols)` is `(n + cols - 1) /
cols` for `cols > 0` (for `cols = 0` the JS computes an Infinity-sized
canvas, which no caller produces: cols comes from `Math.max(1, ...)`). -/
def downloadVisibleSheetPngLayout (n tilePx gapPx cols outScale : Nat) : Option SheetLayout :=
  if n = 0 then none
  else
    let rows := (n + cols - 1) / cols
    let outTile := tilePx * outScale
    let outGap := gapPx * outScale
    some
      { width := cols * outTile + (cols - 1) * outGap
        height := rows * outTile + (rows - 1) * outGap
        placements :=
          (List.range n).map (fun i =>
            (i % cols * (outTile + outGap), i / cols * (outTile + outGap), outTile, outTile)) }

/-! ## The /api/get-nfts route (src/unnamed/part_001) -/

/-- Decimal digits 0-9, as matched by `[0-9]`. -/
def isDecDigitChar (c : Char) : Bool := 48 ≤ c.toNat ∧ c.toNat ≤ 57

/-- Hex digits, as matched by the regex class `[0-9a-fA-F]`. -/
def isHexDigitChar (c : Char) : Bool := (hexVal c).isSome

/-- Hex letters, as matched by the regex class `[a-fA-F]`. -/
def isHexLetterChar (c : Char) : Bool :=
  (97 ≤ c.toNat ∧ c.toNat ≤ 102) ∨ (65 ≤ c.toNat ∧ c.toNat ≤ 70)

/-- Digit-string value in a base `≤ 16`: `none` if any character is not a
digit of that base.  The empty list yields 0 (callers reject it first as
JS `BigInt` requires at least one digit after a radix marker). -/
def digitsToNat (base : Nat) (cs : List Char) : Option Nat :=
  cs.foldl
    (fun acc c =>
      match acc, hexVal c with
      | some a, some d => if d < base then some (a * base + d) else none
      | _, _ => none)
    (some 0)

/-- Model of the host `BigInt(string)` constructor on a character list
(whitespace already stripped by callers): the empty string is 0; `0x`/`0X`,
`0o`/`0O`, `0b`/`0B` radix forms need at least one digit of that base; an
optional single sign followed by decimal digits otherwise.  `none` models
the `SyntaxError` throw. -/
def jsBigIntChars : List Char → Option Int
  | [] => some 0
  | c0 :: rest =>
    if c0 = '0' then
      match rest with
      | r1 :: rest2 =>
        if r1 = 'x' ∨ r1 = 'X' then
          if rest2 = [] then none else (digitsToNat 16 rest2).map Int.ofNat
        else if r1 = 'o' ∨ r1 = 'O' then
          if rest2 = [] then none else (digitsToNat 8 rest2).map Int.ofNat
        else if r1 = 'b' ∨ r1 = 'B' then
          if rest2 = [] then none else (digitsToNat 2 rest2).map Int.ofNat
        else (digitsToNat 10 (c0 :: rest)).map Int.ofNat
      | [] => some 0
    else if c0 = '-' then
      if rest = [] then none else (digitsToNat 10 rest).map (fun n => -(n : Int))
    else if c0 = '+' then
      if rest = [] then none else (digitsToNat 10 rest).map Int.ofNat
    else (digitsToNat 10 (c0 :: rest)).map Int.ofNat

/-- Model of `BigInt(s)` for a string. -/
def jsBigInt (s : String) : Option Int := jsBigIntChars s.data

/-- Decimal string of an integer, as JS `BigInt.prototype.toString()`. -/
def intToDecString : Int → String
  | Int.ofNat n => Nat.repr n
  | Int.negSucc n => String.mk ('-' :: (Nat.repr (n + 1)).data)

/-- Embeds `parseAlchemyTokenIdToDecimal` (src/unnamed/part_001 lines
22-27): trim; if the input starts with `0x`, `BigInt` it directly; else if
it is nonempty, all hex digits and contains a hex letter, `BigInt` it with
`0x` prepended; else `BigInt` it as-is.  `none` models `BigInt` throwing. -/
def parseAlchemyTokenIdToDecimal (tokenId : String) : Option String :=
  let t := jsTrim tokenId
  if jsStartsWith t "0x" then (jsBigInt t).map intToDecString
  else if t.data ≠ [] ∧ t.data.all isHexDigitChar ∧ t.data.any isHexLetterChar then
    (jsBigIntChars ('0' :: 'x' :: t.data)).map intToDecString
  else (jsBigInt t).map intToDecString

/-- The numeric order the route sorts token-id strings by
(src/unnamed/part_001 line 134: `BigInt(a) < BigInt(b) ? -1 : 1`); on the
decimal strings being sorted `jsBigInt` never fails, and ids are pairwise
distinct, so a merge sort by `≤` on the parsed values agrees with the JS
comparator. -/
def tokenIdNumLe (a b : String) : Bool :=
  (jsBigInt a).getD 0 ≤ (jsBigInt b).getD 0

/-- A letter item of the route response (src/unnamed/part_001 lines 29-34). -/
structure LetterItem where
  tokenId : String
  name : Option String
  imageUrl : Option String
  tokenUri : Option String
deriving DecidableEq

/-- The fields the route reads off an Alchemy metadata response, via
`extractName` / `extractImageUrl` / `extractTokenUri`
(src/unnamed/part_001 lines 47-110); the tolerant multi-shape extraction
itself is kept abstract, only its three optional results are modelled. -/
structure NftMetadata where
  name : Option String
  imageUrl : Option String
  tokenUri : Option String

/-- The `letters` array built at src/unnamed/part_001 lines 132-161: sort
the decimal ids numerically, then fetch metadata per id, a per-item failure
degrading that one item to null fields. -/
def routeLetters (getMeta : String → Except String NftMetadata)
    (tokenIdsDec : List String) : List LetterItem :=
  (tokenIdsDec.mergeSort tokenIdNumLe).map (fun tid =>
    match getMeta tid with
    | Except.ok md =>
        { tokenId := tid, name := md.name, imageUrl := md.imageUrl, tokenUri := md.tokenUri }
    | Except.error _ => { tokenId := tid, name := none, imageUrl := none, tokenUri := none })

/-- Mapping a fallible per-element function over a list, any failure
propagating (models a throwing callback inside `Array.prototype.map`). -/
def mapOrThrow (f : String → Option String) : List String → Option (List String)
  | [] => some []
  | x :: xs =>
    match f x, mapOrThrow f xs with
    | some y, some ys => some (y :: ys)
    | _, _ => none

/-- The `address` field of the POST body as zod's `z.object({address:
z.string()})` sees it: either missing / not a string, or a string. -/
inductive AddressField where
  | missingOrNonString
  | str (s : String)

/-- One zod issue, as returned in `validation.error.issues`. -/
structure ZodIssue where
  path : List String
  message : String
deriving DecidableEq

/-- The `schema.safeParse` of src/unnamed/part_001 lines 15-19 and 115:
`address` must be a string satisfying the external `isAddress` predicate,
whose failure produces the refine issue with the message of line 17. -/
def schemaSafeParse (isAddress : String → Bool) (body : AddressField) :
    Except (List ZodIssue) String :=
  match body with
  | AddressField.missingOrNonString =>
    Except.error [{ path := ["address"], message := "Required" }]
  | AddressField.str s =>
    if isAddress s then Except.ok s
    else Except.error [{ path := ["address"], message := "Invalid Ethereum address format" }]

/-- The letter contract address constant (src/unnamed/part_001 line 7). -/
def LETTER_CONTRACT_ADDRESS : String := "0xb8261f4431928F176c5A07887c8fcAcCd13c6D16"

/-- Body of a route response, by shape. -/
inductive RouteBody where
  | validationFailed (error : String) (issues : List ZodIssue)
  | fetchFailed (error : String) (details : String)
  | success (address : String) (letterContract : String) (letters : List LetterItem)

/-- An HTTP response: status code plus JSON body shape. -/
structure RouteResponse where
  status : Nat
  body : RouteBody

/-- Embeds the `POST` handler (src/unnamed/part_001 lines 112-176).
External collaborators are parameters: the `isAddress` validator, Alchemy's
`getNftsForOwner` (returning the owned raw token-id strings) and
`getNftMetadata`; `reqJson` is the result of `request.json()` (which can
throw, landing in the outer catch).  A thrown `parseAlchemyTokenIdToDecimal`
also lands in the outer catch, producing the generic 500. -/
def POSTmodel (isAddress : String → Bool)
    (getOwned : String → Except String (List String))
    (getMeta : String → Except String NftMetadata)
    (reqJson : Except String AddressField) : RouteResponse :=
  match reqJson with
  | Except.error e => { status := 500, body := RouteBody.fetchFailed "Failed to fetch NFTs" e }
  | Except.ok body =>
    match schemaSafeParse isAddress body with
    | Except.error issues =>
      { status := 400, body := RouteBody.validationFailed "Validation failed" issues }
    | Except.ok address =>
      match getOwned address with
      | Except.error e =>
        { status := 500, body := RouteBody.fetchFailed "Failed to fetch NFTs" e }
      | Except.ok ownedTokenIds =>
        match mapOrThrow parseAlchemyTokenIdToDecimal ownedTokenIds with
        | none =>
          { status := 500,
            body := RouteBody.fetchFailed "Failed to fetch NFTs" "SyntaxError" }
        | some tokenIdsDec =>
          { status := 200,
            body := RouteBody.success address LETTER_CONTRACT_ADDRESS
              (routeLetters getMeta tokenIdsDec) }

/-! ## Mint page (src/unnamed/part_002): hydrateSkulls and eligibility -/

/-- The `Item` record of src/unnamed/part_002 lines 75-87 (`bigint` fields
as `Nat`, `skullOwner` addresses as strings). -/
structure MintItem where
  letterTokenId : Nat
  letterName : Option String := none
  letterImageUrl : Option String := none
  usedLetter : Bool
  skullTokenId : Nat
  skullNonce : Nat
  skullSvg : Option String := none
  skullOwner : Option String := none
  loading : Bool
deriving DecidableEq

/-- The contract view functions `hydrateSkulls` reads, as fallible host
calls (`Except.error` models a rejected RPC read). -/
structure ChainReads where
  usedLetterToken : Nat → Except String Bool
  skullOfLetter : Nat → Except String Nat
  ownerOf : Nat → Except String String
  nonceOf : Nat → Except String Nat
  previewSvg : Nat → Nat → Except String String

/-- The per-item body of `hydrateSkulls` (src/unnamed/part_002 lines
144-211): read the used flag and skull id (any rejection falls to the catch
at lines 207-210, which returns the item with `loading: false`); when
`minted = usedLetter || skullTokenId !== ZERO` fails or the skull id is the
zero sentinel, return early with owner/nonce/preview cleared (lines
161-174); otherwise resolve owner, nonce and preview SVG (lines 176-206),
any rejection again falling to the catch. -/
def hydrateOne (c : ChainReads) (it : MintItem) : MintItem :=
  match c.usedLetterToken it.letterTokenId, c.skullOfLetter it.letterTokenId with
  | Except.ok usedLetter, Except.ok skullTokenId =>
    let minted := usedLetter || decide (skullTokenId ≠ 0)
    if !minted || decide (skullTokenId = 0) then
      { it with usedLetter := usedLetter, skullTokenId := skullTokenId,
                skullOwner := none, skullNonce := 0, skullSvg := none, loading := false }
    else
      match c.ownerOf skullTokenId, c.nonceOf skullTokenId with
      | Except.ok owner, Except.ok nonce =>
        match c.previewSvg it.letterTokenId nonce with
        | Except.ok svg =>
            { it with usedLetter := usedLetter, skullTokenId := skullTokenId,
                      skullOwner := some owner, skullNonce := nonce, skullSvg := some svg,
                      loading := false }
        | Except.error _ => { it with loading := false }
      | _, _ => { it with loading := false }
  | _, _ => { it with loading := false }

/-- Whether the try block of `hydrateOne` throws for this item, i.e.
whether the catch at src/unnamed/part_002 lines 207-210 runs: one of the
reads that are actually executed rejects. -/
def hydrateFails (c : ChainReads) (it : MintItem) : Bool :=
  match c.usedLetterToken it.letterTokenId, c.skullOfLetter it.letterTokenId with
  | Except.ok usedLetter, Except.ok skullTokenId =>
    if !(usedLetter || decide (skullTokenId ≠ 0)) || decide (skullTokenId = 0) then false
    else
      match c.ownerOf skullTokenId, c.nonceOf skullTokenId with
      | Except.ok _, Except.ok nonce => !(c.previewSvg it.letterTokenId nonce).isOk
      | _, _ => true
  | _, _ => true

/-- The blanket pre-mark of `hydrateSkulls` (src/unnamed/part_002 line 141):
`setItems(prev => prev.map(x => ({ ...x, loading: true })))`. -/
def premark (l : List MintItem) : List MintItem :=
  l.map (fun x => { x with loading := true })

/-- Embeds `hydrateSkulls` (src/unnamed/part_002 lines 136-215) as a state
transformation on the items list, in the calling pattern both call sites
use (state equals the `current` argument when called): empty input returns
unchanged (line 138); else all items are pre-marked loading, the first 80
(`current.slice(0, 80)`, line 144) are hydrated, and the final write at
line 214 is `[...next, ...prev.slice(next.length)]`. -/
def hydrateSkullsResult (c : ChainReads) (current : List MintItem) : List MintItem :=
  if current.length = 0 then current
  else
    let next := (current.take 80).map (hydrateOne c)
    next ++ (premark current).drop next.length

/-- The minted classification of the render (src/unnamed/part_002 line 429):
`it.usedLetter || it.skullTokenId !== ZERO`. -/
def mintedOf (it : MintItem) : Bool :=
  it.usedLetter || decide (it.skullTokenId ≠ 0)

/-- The `mintableCount` filter predicate (src/unnamed/part_002 lines
311-314): `!x.loading && !x.usedLetter && x.skullTokenId === ZERO`. -/
def countedMintable (it : MintItem) : Bool :=
  !it.loading && !it.usedLetter && decide (it.skullTokenId = 0)

/-- `mintableCount` (src/unnamed/part_002 lines 311-314). -/
def mintableCount (items : List MintItem) : Nat :=
  (items.filter countedMintable).length

/-- The mint button's disabled flag (src/unnamed/part_002 lines 436-437):
`minted || isPending || isConfirming || it.loading`. -/
def disableMint (isPending isConfirming : Bool) (it : MintItem) : Bool :=
  mintedOf it || isPending || isConfirming || it.loading

/-- The fresh item `loadLettersFromApi` builds per letter
(src/unnamed/part_002 lines 257-269): not used, zero skull id, loading. -/
def freshItem (letterTokenId : Nat) (name imageUrl : Option String) : MintItem :=
  { letterTokenId := letterTokenId, letterName := name, letterImageUrl := imageUrl,
    usedLetter := false, skullTokenId := 0, skullNonce := 0,
    skullSvg := none, skullOwner := none, loading := true }

/-! ## Theorems -/

/-- C1: for every reconciled source token (its executed chain reads all
succeed, the follow-up reads being executed exactly when the skull id read
is non-zero), the hydrated item is classified minted iff the used-flag read
is true or the skull id read is non-zero; it is counted mintable by
`mintableCount` exactly when the used-flag is false and the skull id is
zero (its loading flag being false after hydration); and when the used-flag
is true but the skull id is zero the item comes back minted with
owner/nonce/preview cleared, no resolution of them attempted. -/
theorem hydrateOne_mint_classification
    (c : ChainReads) (it : MintItem) (u : Bool) (sid : Nat)
    (hu : c.usedLetterToken it.letterTokenId = Except.ok u)
    (hs : c.skullOfLetter it.letterTokenId = Except.ok sid)
    (hf : sid ≠ 0 → ∃ ow non sv, c.ownerOf sid = Except.ok ow ∧
      c.nonceOf sid = Except.ok non ∧ c.previewSvg it.letterTokenId non = Except.ok sv) :
    mintedOf (hydrateOne c it) = (u || decide (sid ≠ 0)) ∧
    countedMintable (hydrateOne c it) = (!u && decide (sid = 0)) ∧
    (u = true → sid = 0 →
      hydrateOne c it =
        { it with usedLetter := true, skullTokenId := 0, skullOwner := none,
                  skullNonce := 0, skullSvg := none, loading := false }) := by
  by_cases hsid : sid = 0
  · subst hsid
    simp [hydrateOne, hu, hs, mintedOf, countedMintable]
  · obtain ⟨ow, non, sv, ho, hn, hp⟩ := hf hsid
    simp [hydrateOne, hu, hs, ho, hn, hp, mintedOf, countedMintable, hsid]

/-- Chain stub for the C1 witness: used-flag true, skull id zero, all
follow-up reads failing (they must not be reached). -/
def c1Chain : ChainReads :=
  { usedLetterToken := fun _ => Except.ok true
    skullOfLetter := fun _ => Except.ok 0
    ownerOf := fun _ => Except.error "unreachable"
    nonceOf := fun _ => Except.error "unreachable"
    previewSvg := fun _ _ => Except.error "unreachable" }

/-- C1 witness: the theorem applied at a concrete chain and item, in the
fail-safe case (used-flag true, skull id zero). -/
theorem hydrateOne_mint_classification_witness :
    mintedOf (hydrateOne c1Chain (freshItem 7 none none)) = (true || decide ((0 : Nat) ≠ 0)) ∧
    countedMintable (hydrateOne c1Chain (freshItem 7 none none)) =
      (!true && decide ((0 : Nat) = 0)) ∧
    (true = true → (0 : Nat) = 0 →
      hydrateOne c1Chain (freshItem 7 none none) =
        { freshItem 7 none none with usedLetter := true, skullTokenId := 0,
                                     skullOwner := none, skullNonce := 0, skullSvg := none,
                                     loading := false }) :=
  hydrateOne_mint_classification c1Chain (freshItem 7 none none) true 0 rfl rfl
    (fun h => absurd rfl h)

/-- C2: when the try block of the per-item hydration throws (any executed
read rejects), the returned item is the input item with only its loading
flag forced to false; in particular its used-flag and skull id — the fields
mint eligibility is computed from — are unchanged. -/
theorem hydrateOne_failed_read_preserves
    (c : ChainReads) (it : MintItem) (h : hydrateFails c it = true) :
    hydrateOne c it = { it with loading := false } ∧
    (hydrateOne c it).usedLetter = it.usedLetter ∧
    (hydrateOne c it).skullTokenId = it.skullTokenId := by
  have key : hydrateOne c it = { it with loading := false } := by
    unfold hydrateOne
    unfold hydrateFails at h
    cases h1 : c.usedLetterToken it.letterTokenId with
    | error e => simp [h1]
    | ok u =>
      cases h2 : c.skullOfLetter it.letterTokenId with
      | error e => simp [h1, h2]
      | ok sid =>
        rw [h1, h2] at h
        simp only at h ⊢
        by_cases hc : (!(u || decide (sid ≠ 0)) || decide (sid = 0)) = true
        · rw [if_pos hc] at h
          exact absurd h (by simp)
        · rw [if_neg hc] at h ⊢
          cases h3 : c.ownerOf sid with
          | error e => simp [h3]
          | ok ow =>
            cases h4 : c.nonceOf sid with
            | error e => simp [h3, h4]
            | ok non =>
              rw [h3, h4] at h
              simp only at h ⊢
              cases h5 : c.previewSvg it.letterTokenId non with
              | error e => simp [h5]
              | ok sv => simp [h5, Except.isOk, Except.toBool] at h
  exact ⟨key, by rw [key], by rw [key]⟩

/-- Chain stub for the C2 witness: every read rejects. -/
def c2Chain : ChainReads :=
  { usedLetterToken := fun _ => Except.error "rpc down"
    skullOfLetter := fun _ => Except.error "rpc down"
    ownerOf := fun _ => Except.error "rpc down"
    nonceOf := fun _ => Except.error "rpc down"
    previewSvg := fun _ _ => Except.error "rpc down" }

/-- C2 witness: the theorem applied at a concrete failing chain and item. -/
theorem hydrateOne_failed_read_preserves_witness :
    hydrateOne c2Chain (freshItem 3 none none) =
      { freshItem 3 none none with loading := false } ∧
    (hydrateOne c2Chain (freshItem 3 none none)).usedLetter =
      (freshItem 3 none none).usedLetter ∧
    (hydrateOne c2Chain (freshItem 3 none none)).skullTokenId =
      (freshItem 3 none none).skullTokenId :=
  hydrateOne_failed_read_preserves c2Chain (freshItem 3 none none) rfl

/-- C9: when more than 80 items are reconciled, every item at index 80 or
beyond comes back as the input item with its loading flag still true (the
blanket pre-mark), the full list keeping its length; such an item is never
counted mintable and its mint button stays disabled. -/
theorem hydrateSkulls_bounded_tail (c : ChainReads) (current : List MintItem)
    (h : 80 < current.length) :
    (hydrateSkullsResult c current).length = current.length ∧
    ∀ i, 80 ≤ i → ∀ x, current[i]? = some x →
      (hydrateSkullsResult c current)[i]? = some { x with loading := true } ∧
      countedMintable { x with loading := true } = false ∧
      ∀ p cf, disableMint p cf { x with loading := true } = true := by
  have hne : ¬ current.length = 0 := by omega
  have hlen80 : ((current.take 80).map (hydrateOne c)).length = 80 := by
    simp [List.length_take]
    omega
  constructor
  · rw [hydrateSkullsResult, if_neg hne]
    simp only [List.length_append, hlen80, List.length_drop, premark, List.length_map]
    omega
  · intro i hi x hx
    refine ⟨?_, by simp [countedMintable], fun p cf => by simp [disableMint]⟩
    rw [hydrateSkullsResult, if_neg hne]
    rw [List.getElem?_append_right (by rw [hlen80]; exact hi)]
    rw [hlen80, List.getElem?_drop]
    have : 80 + (i - 80) = i := by omega
    rw [this, premark, List.getElem?_map, hx]
    rfl

/-- Chain stub for the C9 witness. -/
def c9Chain : ChainReads :=
  { usedLetterToken := fun _ => Except.ok false
    skullOfLetter := fun _ => Except.ok 0
    ownerOf := fun _ => Except.error "unreachable"
    nonceOf := fun _ => Except.error "unreachable"
    previewSvg := fun _ _ => Except.error "unreachable" }

/-- C9 witness: the theorem applied to a concrete list of 81 items. -/
theorem hydrateSkulls_bounded_tail_witness :
    (hydrateSkullsResult c9Chain (List.replicate 81 (freshItem 5 none none))).length =
      (List.replicate 81 (freshItem 5 none none)).length ∧
    ∀ i, 80 ≤ i → ∀ x, (List.replicate 81 (freshItem 5 none none))[i]? = some x →
      (hydrateSkullsResult c9Chain (List.replicate 81 (freshItem 5 none none)))[i]? =
        some { x with loading := true } ∧
      countedMintable { x with loading := true } = false ∧
      ∀ p cf, disableMint p cf { x with loading := true } = true :=
  hydrateSkulls_bounded_tail c9Chain (List.replicate 81 (freshItem 5 none none))
    (by simp)

/-- C6: the supply is derived from the next-id counter as
`nextId > 0 ? nextId - 1 : 0`; the page size is fixed at 80; `loadMore` is
a no-op once the watermark has reached the supply, and otherwise requests
exactly the contiguous ids `loaded+1 .. min (loaded+80) supply`, advancing
the watermark to the end of that range. -/
theorem loadMore_pagination_spec :
    (∀ nextId, deriveSupply nextId = if 0 < nextId then nextId - 1 else 0) ∧
    pageSize = 80 ∧
    (∀ loaded maxToLoad, maxToLoad ≤ loaded →
      loadMoreBatch loaded maxToLoad = [] ∧ loadMoreWatermark loaded maxToLoad = loaded) ∧
    (∀ loaded maxToLoad, loaded < maxToLoad →
      loadMoreWatermark loaded maxToLoad = min (loaded + 80) maxToLoad ∧
      loadMoreBatch loaded maxToLoad =
        List.range' (loaded + 1) (min (loaded + 80) maxToLoad - loaded) ∧
      ∀ n, n ∈ loadMoreBatch loaded maxToLoad ↔
        loaded + 1 ≤ n ∧ n ≤ min (loaded + 80) maxToLoad) := by
  refine ⟨fun _ => rfl, rfl, ?_, ?_⟩
  · intro loaded m hm
    exact ⟨by simp [loadMoreBatch, hm], by simp [loadMoreWatermark, hm]⟩
  · intro loaded m hm
    have hm' : ¬ m ≤ loaded := by omega
    refine ⟨by simp [loadMoreWatermark, hm', pageSize], ?_, ?_⟩
    · rw [loadMoreBatch, if_neg hm', batchIdsFromTo, pageSize]
      congr 1
      omega
    · intro n
      rw [loadMoreBatch, if_neg hm', batchIdsFromTo, pageSize, List.mem_range'_1]
      omega

/-- C6 witness: the theorem applied at concrete watermark 0 and supply
200 (and the no-op case at watermark 200). -/
theorem loadMore_pagination_spec_witness :
    loadMoreWatermark 0 200 = min (0 + 80) 200 ∧
    loadMoreBatch 0 200 = List.range' (0 + 1) (min (0 + 80) 200 - 0) ∧
    (42 ∈ loadMoreBatch 0 200 ↔ 0 + 1 ≤ 42 ∧ 42 ≤ min (0 + 80) 200) ∧
    loadMoreBatch 200 200 = [] ∧ loadMoreWatermark 200 200 = 200 := by
  have h := loadMore_pagination_spec
  have h1 := h.2.2.2 0 200 (by omega)
  have h2 := h.2.2.1 200 200 (by omega)
  exact ⟨h1.1, h1.2.1, h1.2.2 42, h2.1, h2.2⟩

/-- C7: for a non-empty input of `n` tiles the compositor produces a canvas
of width `cols*tile*scale + (cols-1)*gap*scale` and height
`rows*tile*scale + (rows-1)*gap*scale` with `rows = (n+cols-1)/cols`, the
ceiling of `n/cols` (characterized by `n ≤ cols*rows < n+cols`); tile `i`
is drawn at column `i % cols`, row `i / cols`, i.e. at pixel position
`(col*(tile*scale+gap*scale), row*(tile*scale+gap*scale))` with a
`tile*scale` square size; for 7 tiles, cols=3, tile=140, gap=0, scale=3
this gives a 3-row grid and a 1260 by 1260 canvas. -/
theorem downloadVisibleSheetPng_geometry :
    (∀ n tilePx gapPx cols outScale, 0 < n → 0 < cols →
      (downloadVisibleSheetPngLayout n tilePx gapPx cols outScale).map SheetLayout.width =
        some (cols * (tilePx * outScale) + (cols - 1) * (gapPx * outScale)) ∧
      (downloadVisibleSheetPngLayout n tilePx gapPx cols outScale).map SheetLayout.height =
        some ((n + cols - 1) / cols * (tilePx * outScale) +
          ((n + cols - 1) / cols - 1) * (gapPx * outScale)) ∧
      (n ≤ cols * ((n + cols - 1) / cols) ∧ cols * ((n + cols - 1) / cols) < n + cols) ∧
      (downloadVisibleSheetPngLayout n tilePx gapPx cols outScale).map
        (fun L => L.placements.length) = some n ∧
      ∀ i, i < n →
        (downloadVisibleSheetPngLayout n tilePx gapPx cols outScale).bind
          (fun L => L.placements[i]?) =
          some (i % cols * (tilePx * outScale + gapPx * outScale),
                i / cols * (tilePx * outScale + gapPx * outScale),
                tilePx * outScale, tilePx * outScale)) ∧
    (downloadVisibleSheetPngLayout 7 140 0 3 3).map SheetLayout.width = some 1260 ∧
    (downloadVisibleSheetPngLayout 7 140 0 3 3).map SheetLayout.height = some 1260 ∧
    (7 + 3 - 1) / 3 = 3 := by
  refine ⟨?_, by rfl, by rfl, by rfl⟩
  intro n tilePx gapPx cols outScale hn hcols
  have hne : ¬ n = 0 := by omega
  rw [downloadVisibleSheetPngLayout, if_neg hne]
  refine ⟨rfl, rfl, ?_, ?_, ?_⟩
  · constructor <;>
      (have hdm := Nat.div_add_mod (n + cols - 1) cols
       have hr := Nat.mod_lt (n + cols - 1) hcols
       omega)
  · simp
  · intro i hi
    simp [List.getElem?_range hi, Nat.mul_add]

/-- C7 witness: the theorem applied at 7 tiles, cols 3, tile 140, gap 0,
scale 3, and tile index 4. -/
theorem downloadVisibleSheetPng_geometry_witness :
    (downloadVisibleSheetPngLayout 7 140 0 3 3).map SheetLayout.width =
      some (3 * (140 * 3) + (3 - 1) * (0 * 3)) ∧
    (downloadVisibleSheetPngLayout 7 140 0 3 3).map SheetLayout.height =
      some ((7 + 3 - 1) / 3 * (140 * 3) + ((7 + 3 - 1) / 3 - 1) * (0 * 3)) ∧
    (7 ≤ 3 * ((7 + 3 - 1) / 3) ∧ 3 * ((7 + 3 - 1) / 3) < 7 + 3) ∧
    (downloadVisibleSheetPngLayout 7 140 0 3 3).map (fun L => L.placements.length) =
      some 7 ∧
    (downloadVisibleSheetPngLayout 7 140 0 3 3).bind (fun L => L.placements[4]?) =
      some (4 % 3 * (140 * 3 + 0 * 3), 4 / 3 * (140 * 3 + 0 * 3), 140 * 3, 140 * 3) := by
  have h := downloadVisibleSheetPng_geometry
  have h7 := h.1 7 140 0 3 3 (by decide) (by decide)
  exact ⟨h7.1, h7.2.1, h7.2.2.1, h7.2.2.2.1, h7.2.2.2.2 4 (by decide)⟩

/-! ### Association-list lemmas for the JS `Map` used in the gallery merge -/

theorem keys_jsMapSet {α : Type} (m : List (Nat × α)) (k : Nat) (v : α) :
    (jsMapSet m k v).map Prod.fst =
      if k ∈ m.map Prod.fst then m.map Prod.fst else m.map Prod.fst ++ [k] := by
  unfold jsMapSet
  split
  · rw [List.map_map]
    refine List.map_congr_left (fun p _ => ?_)
    by_cases hp : p.1 = k
    · simp [hp]
    · simp [hp]
  · simp

theorem mem_jsMapSet_same {α : Type} (m : List (Nat × α)) (k : Nat) (w v : α) :
    ((k, v) ∈ jsMapSet m k w) ↔ v = w := by
  unfold jsMapSet
  split
  · rename_i hk
    constructor
    · intro hmem
      obtain ⟨p, _, hp⟩ := List.mem_map.mp hmem
      by_cases hpk : p.1 = k
      · rw [if_pos hpk] at hp
        exact (Prod.mk.injEq _ _ _ _ ▸ hp).2.symm
      · rw [if_neg hpk] at hp
        exact absurd (congrArg Prod.fst hp) (by simpa using hpk)
    · intro hv
      subst hv
      obtain ⟨p, hpm, hp⟩ := List.mem_map.mp hk
      refine List.mem_map.mpr ⟨p, hpm, ?_⟩
      rw [if_pos hp]
  · rename_i hk
    simp only [List.mem_append, List.mem_singleton, Prod.mk.injEq, true_and]
    constructor
    · rintro (hmem | hv)
      · exact absurd (List.mem_map.mpr ⟨_, hmem, rfl⟩) hk
      · exact hv
    · exact fun hv => Or.inr hv

theorem mem_jsMapSet_other {α : Type} (m : List (Nat × α)) (k : Nat) (w : α)
    (k' : Nat) (v' : α) (hne : k' ≠ k) :
    ((k', v') ∈ jsMapSet m k w) ↔ (k', v') ∈ m := by
  unfold jsMapSet
  split
  · constructor
    · intro hmem
      obtain ⟨p, hpm, hp⟩ := List.mem_map.mp hmem
      by_cases hpk : p.1 = k
      · rw [if_pos hpk] at hp
        exact absurd (congrArg Prod.fst hp) (by simpa using hne.symm)
      · rw [if_neg hpk] at hp
        exact hp ▸ hpm
    · intro hmem
      refine List.mem_map.mpr ⟨(k', v'), hmem, ?_⟩
      rw [if_neg (by simpa using hne)]
  · simp only [List.mem_append, List.mem_singleton, Prod.mk.injEq]
    constructor
    · rintro (hmem | ⟨hk, _⟩)
      · exact hmem
      · exact absurd hk hne
    · exact fun hmem => Or.inl hmem

theorem wellKeyed_jsMapSet (m : List (Nat × SkullItem)) (r : SkullItem)
    (hm : ∀ p ∈ m, (Prod.snd p).tokenId = p.1) :
    ∀ p ∈ jsMapSet m r.tokenId r, (Prod.snd p).tokenId = p.1 := by
  intro p hp
  unfold jsMapSet at hp
  split at hp
  · obtain ⟨q, hqm, hq⟩ := List.mem_map.mp hp
    by_cases hqk : q.1 = r.tokenId
    · rw [if_pos hqk] at hq
      rw [← hq]
    · rw [if_neg hqk] at hq
      exact hq ▸ hm q hqm
  · rcases List.mem_append.mp hp with hpm | hpr
    · exact hm p hpm
    · rw [List.mem_singleton.mp hpr]

/-- Keys present after folding a batch into the map: exactly the old keys
plus the token ids of the batch. -/
theorem mem_keys_foldl (l : List SkullItem) (m : List (Nat × SkullItem)) (k : Nat) :
    (k ∈ (l.foldl (fun m r => jsMapSet m r.tokenId r) m).map Prod.fst) ↔
      k ∈ m.map Prod.fst ∨ k ∈ l.map SkullItem.tokenId := by
  induction l generalizing m with
  | nil => simp
  | cons r l ih =>
    rw [List.foldl_cons, ih, keys_jsMapSet]
    by_cases hk : r.tokenId ∈ m.map Prod.fst
    · rw [if_pos hk]
      simp only [List.map_cons, List.mem_cons]
      constructor
      · rintro (h | h)
        · exact Or.inl h
        · exact Or.inr (Or.inr h)
      · rintro (h | h | h)
        · exact Or.inl h
        · exact Or.inl (h ▸ hk)
        · exact Or.inr h
    · rw [if_neg hk]
      simp only [List.mem_append, List.mem_singleton, List.map_cons, List.mem_cons]
      tauto

theorem nodup_keys_foldl (l : List SkullItem) (m : List (Nat × SkullItem))
    (hm : (m.map Prod.fst).Nodup) :
    ((l.foldl (fun m r => jsMapSet m r.tokenId r) m).map Prod.fst).Nodup := by
  induction l generalizing m with
  | nil => exact hm
  | cons r l ih =>
    rw [List.foldl_cons]
    refine ih _ ?_
    rw [keys_jsMapSet]
    by_cases hk : r.tokenId ∈ m.map Prod.fst
    · rwa [if_pos hk]
    · rw [if_neg hk]
      refine List.Nodup.append hm (List.nodup_singleton _) ?_
      simpa using hk

theorem wellKeyed_foldl (l : List SkullItem) (m : List (Nat × SkullItem))
    (hm : ∀ p ∈ m, (Prod.snd p).tokenId = p.1) :
    ∀ p ∈ l.foldl (fun m r => jsMapSet m r.tokenId r) m, (Prod.snd p).tokenId = p.1 := by
  induction l generalizing m with
  | nil => exact hm
  | cons r l ih =>
    rw [List.foldl_cons]
    exact ih _ (wellKeyed_jsMapSet m r hm)

/-- Last-writer-wins characterization of the fold: the entry stored at key
`k` is the last batch element with that token id, or the old entry when the
batch has none. -/
theorem mem_foldl_iff (l : List SkullItem) (m : List (Nat × SkullItem)) (k : Nat)
    (v : SkullItem) :
    ((k, v) ∈ l.foldl (fun m r => jsMapSet m r.tokenId r) m) ↔
      (match l.reverse.find? (fun r => r.tokenId == k) with
       | some w => v = w
       | none => (k, v) ∈ m) := by
  induction l using List.reverseRecOn generalizing m with
  | nil => simp
  | append_singleton l r ih =>
    rw [List.foldl_append, List.foldl_cons, List.foldl_nil, List.reverse_append]
    simp only [List.reverse_singleton, List.singleton_append, List.find?_cons]
    by_cases hk : r.tokenId = k
    · subst hk
      simp only [beq_self_eq_true]
      exact mem_jsMapSet_same _ _ _ _
    · have hbeq : (r.tokenId == k) = false := by simpa using hk
      rw [hbeq]
      rw [mem_jsMapSet_other _ _ _ _ _ (fun h => hk h.symm)]
      exact ih m

/-- With pairwise-distinct keys, the entry at a key is unique. -/
theorem assoc_unique {α : Type} (m : List (Nat × α)) (hm : (m.map Prod.fst).Nodup)
    (k : Nat) (a b : α) (ha : (k, a) ∈ m) (hb : (k, b) ∈ m) : a = b := by
  induction m with
  | nil => cases ha
  | cons p m ih =>
    simp only [List.map_cons, List.nodup_cons] at hm
    rcases List.mem_cons.mp ha with ha' | ha' <;> rcases List.mem_cons.mp hb with hb' | hb'
    · rw [← ha'] at hb'
      injection hb'.symm with h1 h2
    · exact absurd (List.mem_map.mpr ⟨_, hb', by rw [← ha']⟩) hm.1
    · exact absurd (List.mem_map.mpr ⟨_, ha', by rw [← hb']⟩) hm.1
    · exact ih hm.2 ha' hb'

/-- Two strictly increasing lists of naturals with the same members are
equal. -/
theorem sorted_nat_ext (l1 l2 : List Nat) (h1 : l1.Pairwise (· < ·))
    (h2 : l2.Pairwise (· < ·)) (hm : ∀ k, k ∈ l1 ↔ k ∈ l2) : l1 = l2 := by
  haveI : IsAntisymm Nat (· < ·) :=
    ⟨fun a b hab hba => absurd (lt_trans hab hba) (lt_irrefl a)⟩
  have hperm : l1.Perm l2 := by
    rw [List.perm_ext_iff_of_nodup (h1.imp Nat.ne_of_lt) (h2.imp Nat.ne_of_lt)]
    exact hm
  exact List.eq_of_perm_of_sorted hperm h1 h2

/-- The token ids of the merged collection, as a list, are pairwise
strictly increasing (so in particular unique). -/
theorem mergeStep_ids_sorted (prev results : List SkullItem) :
    ((mergeStep prev results).map SkullItem.tokenId).Pairwise (· < ·) := by
  unfold mergeStep sortItems
  set M := results.foldl (fun m r => jsMapSet m r.tokenId r)
    (prev.foldl (fun m p => jsMapSet m p.tokenId p) []) with hM
  have hperm : ((M.map Prod.snd).mergeSort (fun a b => a.tokenId ≤ b.tokenId)).Perm
      (M.map Prod.snd) := List.mergeSort_perm _ _
  have hids : (M.map Prod.snd).map SkullItem.tokenId = M.map Prod.fst := by
    rw [List.map_map]
    refine List.map_congr_left (fun p hp => ?_)
    exact wellKeyed_foldl results _ (wellKeyed_foldl prev [] (by simp)) p hp
  have hnodup : (M.map Prod.fst).Nodup :=
    nodup_keys_foldl results _ (nodup_keys_foldl prev [] (by simp))
  have hnodup' : (((M.map Prod.snd).mergeSort
      (fun a b => a.tokenId ≤ b.tokenId)).map SkullItem.tokenId).Nodup := by
    refine ((hperm.map SkullItem.tokenId).nodup_iff).mpr ?_
    rw [hids]
    exact hnodup
  have hsorted : (((M.map Prod.snd).mergeSort
      (fun a b => a.tokenId ≤ b.tokenId)).map SkullItem.tokenId).Pairwise (· ≤ ·) := by
    rw [List.pairwise_map]
    have htr : ∀ a b c : SkullItem, decide (a.tokenId ≤ b.tokenId) = true →
        decide (b.tokenId ≤ c.tokenId) = true → decide (a.tokenId ≤ c.tokenId) = true := by
      intro a b c hab hbc
      have hab' := of_decide_eq_true hab
      have hbc' := of_decide_eq_true hbc
      exact decide_eq_true (le_trans hab' hbc')
    have hto : ∀ a b : SkullItem,
        (decide (a.tokenId ≤ b.tokenId) || decide (b.tokenId ≤ a.tokenId)) = true := by
      intro a b
      rcases Nat.le_total a.tokenId b.tokenId with h | h
      · exact Bool.or_eq_true_iff.mpr (Or.inl (decide_eq_true h))
      · exact Bool.or_eq_true_iff.mpr (Or.inr (decide_eq_true h))
    have hms := List.sorted_mergeSort htr hto (M.map Prod.snd)
    exact hms.imp (fun h => by simpa using h)
  exact (hsorted.and hnodup').imp (fun h => lt_of_le_of_ne h.1 h.2)

/-- Membership of a token id in the merged collection: it is there exactly
when it was in the previous collection or in the page results. -/
theorem mergeStep_ids_mem (prev results : List SkullItem) (k : Nat) :
    (k ∈ (mergeStep prev results).map SkullItem.tokenId ↔
      k ∈ prev.map SkullItem.tokenId ∨ k ∈ results.map SkullItem.tokenId) := by
  unfold mergeStep sortItems
  set M := results.foldl (fun m r => jsMapSet m r.tokenId r)
    (prev.foldl (fun m p => jsMapSet m p.tokenId p) []) with hM
  have hperm : ((M.map Prod.snd).mergeSort (fun a b => a.tokenId ≤ b.tokenId)).Perm
      (M.map Prod.snd) := List.mergeSort_perm _ _
  have hids : (M.map Prod.snd).map SkullItem.tokenId = M.map Prod.fst := by
    rw [List.map_map]
    refine List.map_congr_left (fun p hp => ?_)
    exact wellKeyed_foldl results _ (wellKeyed_foldl prev [] (by simp)) p hp
  rw [(hperm.map SkullItem.tokenId).mem_iff, hids, hM, mem_keys_foldl, mem_keys_foldl]
  simp only [List.map_nil, List.not_mem_nil, false_or]

/-- C5: after each merge step the gallery collection is unique by token id
and sorted strictly ascending by token id (first conjunct), an id is
present exactly when it came from the previous collection or from the page
results (second conjunct); loading page 1..80 into its pending placeholders
and then page 81..160 into the grown collection yields exactly 160 items
with ids 1..160 (third conjunct); and a fetch result for an id already
present supersedes the old entry: the entry at that id is the last page
result carrying it (fourth conjunct). -/
theorem mergeStep_invariants :
    (∀ prev results : List SkullItem,
      ((mergeStep prev results).map SkullItem.tokenId).Pairwise (· < ·)) ∧
    (∀ (prev results : List SkullItem) (k : Nat),
      k ∈ (mergeStep prev results).map SkullItem.tokenId ↔
        k ∈ prev.map SkullItem.tokenId ∨ k ∈ results.map SkullItem.tokenId) ∧
    (∀ res1 res2 : List SkullItem,
      res1.map SkullItem.tokenId = List.range' 1 80 →
      res2.map SkullItem.tokenId = List.range' 81 80 →
      (mergeStep (mergeStep ((List.range' 1 80).map pendingItem) res1 ++
          (List.range' 81 80).map pendingItem) res2).map SkullItem.tokenId =
        List.range' 1 160 ∧
      (mergeStep (mergeStep ((List.range' 1 80).map pendingItem) res1 ++
          (List.range' 81 80).map pendingItem) res2).length = 160) ∧
    (∀ (prev results : List SkullItem) (k : Nat) (v : SkullItem),
      results.reverse.find? (fun r => r.tokenId == k) = some v →
      v ∈ mergeStep prev results ∧
      ∀ u ∈ mergeStep prev results, u.tokenId = k → u = v) := by
  have hpend : ∀ s n, ((List.range' s n).map pendingItem).map SkullItem.tokenId =
      List.range' s n := by
    intro s n
    rw [List.map_map]
    exact List.map_id _
  refine ⟨mergeStep_ids_sorted, mergeStep_ids_mem, ?_, ?_⟩
  · intro res1 res2 h1 h2
    have hst1 : (mergeStep ((List.range' 1 80).map pendingItem) res1).map
        SkullItem.tokenId = List.range' 1 80 := by
      refine sorted_nat_ext _ _ (mergeStep_ids_sorted _ _) (List.pairwise_lt_range' _ _) ?_
      intro k
      rw [mergeStep_ids_mem, hpend, h1, or_self]
    have happ : (mergeStep ((List.range' 1 80).map pendingItem) res1 ++
        (List.range' 81 80).map pendingItem).map SkullItem.tokenId =
        List.range' 1 160 := by
      rw [List.map_append, hst1, hpend]
      have := List.range'_append 1 80 80 1
      simpa using this
    have hids : (mergeStep (mergeStep ((List.range' 1 80).map pendingItem) res1 ++
        (List.range' 81 80).map pendingItem) res2).map SkullItem.tokenId =
        List.range' 1 160 := by
      refine sorted_nat_ext _ _ (mergeStep_ids_sorted _ _) (List.pairwise_lt_range' _ _) ?_
      intro k
      rw [mergeStep_ids_mem, happ, h2]
      constructor
      · rintro (h | h)
        · exact h
        · rw [List.mem_range'_1] at h ⊢
          omega
      · exact fun h => Or.inl h
    refine ⟨hids, ?_⟩
    have := congrArg List.length hids
    simpa using this
  · intro prev results k v hfind
    have hkv : (k, v) ∈ results.foldl (fun m r => jsMapSet m r.tokenId r)
        (prev.foldl (fun m p => jsMapSet m p.tokenId p) []) := by
      rw [mem_foldl_iff, hfind]
    have hnodup : ((results.foldl (fun m r => jsMapSet m r.tokenId r)
        (prev.foldl (fun m p => jsMapSet m p.tokenId p) [])).map Prod.fst).Nodup :=
      nodup_keys_foldl results _ (nodup_keys_foldl prev [] (by simp))
    have hperm : (mergeStep prev results).Perm
        ((results.foldl (fun m r => jsMapSet m r.tokenId r)
          (prev.foldl (fun m p => jsMapSet m p.tokenId p) [])).map Prod.snd) := by
      unfold mergeStep sortItems
      exact List.mergeSort_perm _ _
    constructor
    · exact hperm.mem_iff.mpr (List.mem_map.mpr ⟨(k, v), hkv, rfl⟩)
    · intro u hu hk
      have hu' := hperm.mem_iff.mp hu
      obtain ⟨⟨pk, pv⟩, hpM, hpv⟩ := List.mem_map.mp hu'
      have hkey : pv.tokenId = pk :=
        wellKeyed_foldl results _ (wellKeyed_foldl prev [] (by simp)) (pk, pv) hpM
      simp only at hpv hkey
      subst hpv
      have hpk : pk = k := by rw [← hkey, hk]
      subst hpk
      exact assoc_unique _ hnodup _ _ _ hpM hkv

/-- Page-1 results for the C5 witness: loaded items with ids 1..80. -/
def c5Page1 : List SkullItem :=
  (List.range' 1 80).map (fun id => { tokenId := id, loading := false })

/-- Page-2 results for the C5 witness: loaded items with ids 81..160. -/
def c5Page2 : List SkullItem :=
  (List.range' 81 80).map (fun id => { tokenId := id, loading := false })

/-- A single loaded item for the C5 witness's supersede clause. -/
def c5Item : SkullItem := { tokenId := 5, loading := false }

/-- C5 witness: the theorem applied at concrete pages and items. -/
theorem mergeStep_invariants_witness :
    ((mergeStep [] [c5Item]).map SkullItem.tokenId).Pairwise (· < ·) ∧
    (5 ∈ (mergeStep [] [c5Item]).map SkullItem.tokenId ↔
      5 ∈ ([] : List SkullItem).map SkullItem.tokenId ∨
      5 ∈ [c5Item].map SkullItem.tokenId) ∧
    (mergeStep (mergeStep ((List.range' 1 80).map pendingItem) c5Page1 ++
        (List.range' 81 80).map pendingItem) c5Page2).map SkullItem.tokenId =
      List.range' 1 160 ∧
    (mergeStep (mergeStep ((List.range' 1 80).map pendingItem) c5Page1 ++
        (List.range' 81 80).map pendingItem) c5Page2).length = 160 ∧
    c5Item ∈ mergeStep [] [c5Item] := by
  have h := mergeStep_invariants
  have hp1 : c5Page1.map SkullItem.tokenId = List.range' 1 80 := by
    rw [c5Page1, List.map_map]
    exact List.map_id _
  have hp2 : c5Page2.map SkullItem.tokenId = List.range' 81 80 := by
    rw [c5Page2, List.map_map]
    exact List.map_id _
  have hsc := h.2.2.1 c5Page1 c5Page2 hp1 hp2
  have hov := h.2.2.2 [] [c5Item] 5 c5Item rfl
  exact ⟨h.1 [] [c5Item], h.2.1 [] [c5Item] 5, hsc.1, hsc.2, hov.1⟩

/-- C3: for every input that does not start with the exact prefix
`data:application/json;base64,`, `parseTokenUriToSvg` returns null and
never throws, whatever the host JSON parser does. -/
theorem parseTokenUriToSvg_prefix_gate
    (jsonParse : String → Except String ParsedMeta) (tokenUri : String)
    (h : jsStartsWith tokenUri "data:application/json;base64," = false) :
    parseTokenUriToSvg jsonParse tokenUri = Except.ok none := by
  simp [parseTokenUriToSvg, h]

/-- C3 witness: the theorem applied at a concrete non-prefixed URI and a
throwing JSON parser. -/
theorem parseTokenUriToSvg_prefix_gate_witness :
    parseTokenUriToSvg (fun _ => Except.error "SyntaxError") "ipfs://QmX" =
      Except.ok none :=
  parseTokenUriToSvg_prefix_gate (fun _ => Except.error "SyntaxError") "ipfs://QmX"
    (by decide)

/-- C8: a request whose body parses but whose address fails validation gets
a 400 with the zod field-level issue, independently of the chain collaborators
(no chain call is made); a request whose upstream owned-tokens call throws
gets a 500 with the generic message; a request whose upstream calls succeed
gets a 200 `success` body carrying the address, the letter contract and the
letters list. -/
theorem POST_error_contract :
    (∀ (isAddress : String → Bool) (g1 g2 : String → Except String (List String))
        (m1 m2 : String → Except String NftMetadata) (s : String),
      isAddress s = false →
      POSTmodel isAddress g1 m1 (Except.ok (AddressField.str s)) =
        { status := 400,
          body := RouteBody.validationFailed "Validation failed"
            [{ path := ["address"], message := "Invalid Ethereum address format" }] } ∧
      POSTmodel isAddress g1 m1 (Except.ok (AddressField.str s)) =
        POSTmodel isAddress g2 m2 (Except.ok (AddressField.str s))) ∧
    (∀ (isAddress : String → Bool) (getOwned : String → Except String (List String))
        (getMeta : String → Except String NftMetadata) (s e : String),
      isAddress s = true → getOwned s = Except.error e →
      POSTmodel isAddress getOwned getMeta (Except.ok (AddressField.str s)) =
        { status := 500, body := RouteBody.fetchFailed "Failed to fetch NFTs" e }) ∧
    (∀ (isAddress : String → Bool) (getOwned : String → Except String (List String))
        (getMeta : String → Except String NftMetadata) (s : String)
        (ids : List String) (decIds : List String),
      isAddress s = true → getOwned s = Except.ok ids →
      mapOrThrow parseAlchemyTokenIdToDecimal ids = some decIds →
      POSTmodel isAddress getOwned getMeta (Except.ok (AddressField.str s)) =
        { status := 200,
          body := RouteBody.success s LETTER_CONTRACT_ADDRESS
            (routeLetters getMeta decIds) }) := by
  refine ⟨?_, ?_, ?_⟩
  · intro isAddress g1 g2 m1 m2 s h
    constructor
    · simp [POSTmodel, schemaSafeParse, h]
    · simp [POSTmodel, schemaSafeParse, h]
  · intro isAddress getOwned getMeta s e hv hg
    simp [POSTmodel, schemaSafeParse, hv, hg]
  · intro isAddress getOwned getMeta s ids decIds hv hg hm
    simp [POSTmodel, schemaSafeParse, hv, hg, hm]

/-- C8 witness: the theorem applied at concrete validators, collaborators
and bodies, exercising all three response shapes. -/
theorem POST_error_contract_witness :
    (POSTmodel (fun _ => false) (fun _ => Except.error "boom")
        (fun _ => Except.error "meta") (Except.ok (AddressField.str "nope")) =
      { status := 400,
        body := RouteBody.validationFailed "Validation failed"
          [{ path := ["address"], message := "Invalid Ethereum address format" }] } ∧
      POSTmodel (fun _ => false) (fun _ => Except.error "boom")
          (fun _ => Except.error "meta") (Except.ok (AddressField.str "nope")) =
        POSTmodel (fun _ => false) (fun _ => Except.ok ["1"])
          (fun _ => Except.error "other") (Except.ok (AddressField.str "nope"))) ∧
    POSTmodel (fun _ => true) (fun _ => Except.error "boom")
        (fun _ => Except.error "meta")
        (Except.ok (AddressField.str "0x0000000000000000000000000000000000dEaD")) =
      { status := 500, body := RouteBody.fetchFailed "Failed to fetch NFTs" "boom" } ∧
    POSTmodel (fun _ => true) (fun _ => Except.ok ["0x1a", "7"])
        (fun _ => Except.error "meta")
        (Except.ok (AddressField.str "0x0000000000000000000000000000000000dEaD")) =
      { status := 200,
        body := RouteBody.success "0x0000000000000000000000000000000000dEaD"
          LETTER_CONTRACT_ADDRESS
          (routeLetters (fun _ => Except.error "meta") ["26", "7"]) } := by
  have h := POST_error_contract
  refine ⟨h.1 (fun _ => false) (fun _ => Except.error "boom") (fun _ => Except.ok ["1"])
      (fun _ => Except.error "meta") (fun _ => Except.error "other") "nope" rfl,
    h.2.1 (fun _ => true) (fun _ => Except.error "boom") (fun _ => Except.error "meta")
      "0x0000000000000000000000000000000000dEaD" "boom" rfl rfl,
    h.2.2 (fun _ => true) (fun _ => Except.ok ["0x1a", "7"]) (fun _ => Except.error "meta")
      "0x0000000000000000000000000000000000dEaD" ["0x1a", "7"] ["26", "7"] rfl rfl
      (by decide)⟩

/-- C10 counterexample: the claim quantifies over every input string, but
on `"zz"` — neither a radix-prefixed form, nor an all-hex-digit string with
a letter, nor decimal digits — `BigInt` throws, so the function returns no
decimal string at all. -/
theorem parseAlchemyTokenIdToDecimal_counterexample :
    parseAlchemyTokenIdToDecimal "zz" = none := by decide

theorem decDigit_isHex (c : Char) (h : isDecDigitChar c = true) :
    isHexDigitChar c = true := by
  simp only [isDecDigitChar, decide_eq_true_eq] at h
  simp [isHexDigitChar, hexVal, h]

theorem decDigit_not_hexLetter (c : Char) (h : isDecDigitChar c = true) :
    isHexLetterChar c = false := by
  simp only [isDecDigitChar, decide_eq_true_eq] at h
  simp only [isHexLetterChar, decide_eq_false_iff_not]
  omega

theorem decDigit_ne (c : Char) (h : isDecDigitChar c = true) :
    c ≠ 'x' ∧ c ≠ 'X' ∧ c ≠ 'o' ∧ c ≠ 'O' ∧ c ≠ 'b' ∧ c ≠ 'B' ∧
      c ≠ '-' ∧ c ≠ '+' := by
  refine ⟨?_, ?_, ?_, ?_, ?_, ?_, ?_, ?_⟩ <;>
    exact fun he => absurd (he ▸ h) (by decide)

/-- C10 (amended): for every input string whose trimmed form is a
well-formed `BigInt` argument of the shapes the route sees — `0x` plus hex
digits, a nonempty all-hex-digit string, or a nonempty decimal-digit
string — `parseAlchemyTokenIdToDecimal` returns the decimal string of the
value obtained by interpreting it as hexadecimal in the first two cases
(the second requiring at least one letter a-f/A-F) and as decimal
otherwise; and the route's letters array is sorted ascending by the
numeric value of these decimal strings. -/
theorem parseAlchemyTokenIdToDecimal_amended :
    (∀ (s : String) (rest : List Char) (v : Nat),
      (jsTrim s).data = '0' :: 'x' :: rest → rest ≠ [] →
      digitsToNat 16 rest = some v →
      parseAlchemyTokenIdToDecimal s = some (Nat.repr v)) ∧
    (∀ (s : String) (v : Nat),
      (jsTrim s).data ≠ [] → (jsTrim s).data.all isHexDigitChar = true →
      (jsTrim s).data.any isHexLetterChar = true →
      digitsToNat 16 (jsTrim s).data = some v →
      parseAlchemyTokenIdToDecimal s = some (Nat.repr v)) ∧
    (∀ (s : String) (v : Nat),
      (jsTrim s).data ≠ [] → (jsTrim s).data.all isDecDigitChar = true →
      digitsToNat 10 (jsTrim s).data = some v →
      parseAlchemyTokenIdToDecimal s = some (Nat.repr v)) ∧
    (∀ (getMeta : String → Except String NftMetadata) (ids : List String),
      (routeLetters getMeta ids).Pairwise
        (fun a b => (jsBigInt a.tokenId).getD 0 ≤ (jsBigInt b.tokenId).getD 0)) := by
  refine ⟨?_, ?_, ?_, ?_⟩
  · intro s rest v hdata hrest hv
    have hsw : jsStartsWith (jsTrim s) "0x" = true := by
      rw [jsStartsWith, hdata]
      simp [List.isPrefixOf]
    simp [parseAlchemyTokenIdToDecimal, hsw, jsBigInt, hdata, jsBigIntChars, hrest, hv,
      intToDecString]
  · intro s v h1 h2 h3 hv
    have hsw : jsStartsWith (jsTrim s) "0x" = false := by
      cases hd : (jsTrim s).data with
      | nil => exact absurd hd h1
      | cons c0 cs =>
        cases cs with
        | nil => simp [jsStartsWith, hd, List.isPrefixOf]
        | cons c1 cs' =>
          by_cases hx : c1 = 'x'
          · subst hx
            rw [hd] at h2
            simp only [List.all_cons, Bool.and_eq_true] at h2
            exact absurd h2.2.1 (by decide)
          · simp only [jsStartsWith, hd, List.isPrefixOf]
            simp [hx]
            exact fun _ h => hx h.symm
    rw [parseAlchemyTokenIdToDecimal]
    simp only [hsw, Bool.false_eq_true, if_false]
    rw [if_pos ⟨h1, h2, h3⟩]
    simp [jsBigIntChars, h1, hv, intToDecString]
  · intro s v h1 h2 hv
    have hall : ∀ c ∈ (jsTrim s).data, isDecDigitChar c = true := List.all_eq_true.mp h2
    have hsw : jsStartsWith (jsTrim s) "0x" = false := by
      cases hd : (jsTrim s).data with
      | nil => exact absurd hd h1
      | cons c0 cs =>
        cases cs with
        | nil => simp [jsStartsWith, hd, List.isPrefixOf]
        | cons c1 cs' =>
          by_cases hx : c1 = 'x'
          · subst hx
            have := hall 'x' (by rw [hd]; exact List.mem_cons_of_mem _ (List.mem_cons_self _ _))
            exact absurd this (by decide)
          · simp only [jsStartsWith, hd, List.isPrefixOf]
            simp [hx]
            exact fun _ h => hx h.symm
    have hany : (jsTrim s).data.any isHexLetterChar = false := by
      rw [List.any_eq_false]
      intro c hc
      rw [decDigit_not_hexLetter c (hall c hc)]
      simp
    rw [parseAlchemyTokenIdToDecimal]
    simp only [hsw, Bool.false_eq_true, if_false]
    rw [if_neg (by rintro ⟨-, -, hcontra⟩; rw [hany] at hcontra; cases hcontra)]
    rw [jsBigInt]
    cases hd : (jsTrim s).data with
    | nil => exact absurd hd h1
    | cons c0 cs =>
      rw [hd] at hv
      have h0 := hall c0 (by rw [hd]; exact List.mem_cons_self _ _)
      simp only [jsBigIntChars]
      by_cases hc0 : c0 = '0'
      · rw [if_pos hc0]
        cases cs with
        | nil =>
          subst hc0
          have : v = 0 := by
            have : digitsToNat 10 ['0'] = some 0 := by decide
            rw [this] at hv
            injection hv
            omega
          subst this
          rfl
        | cons c1 cs' =>
          have hd1 := hall c1 (by rw [hd]; exact List.mem_cons_of_mem _ (List.mem_cons_self _ _))
          obtain ⟨hx, hX, ho, hO, hb, hB, _, _⟩ := decDigit_ne c1 hd1
          simp only []
          rw [if_neg (by rintro (h | h) <;> [exact hx h; exact hX h])]
          rw [if_neg (by rintro (h | h) <;> [exact ho h; exact hO h])]
          rw [if_neg (by rintro (h | h) <;> [exact hb h; exact hB h])]
          rw [hv]
          rfl
      · obtain ⟨_, _, _, _, _, _, hm, hp⟩ := decDigit_ne c0 h0
        rw [if_neg hc0, if_neg hm, if_neg hp, hv]
        rfl
  · intro getMeta ids
    rw [routeLetters, List.pairwise_map]
    have hproj : ∀ tid,
        (match getMeta tid with
          | Except.ok md =>
            ({ tokenId := tid, name := md.name, imageUrl := md.imageUrl,
               tokenUri := md.tokenUri } : LetterItem)
          | Except.error _ =>
            ({ tokenId := tid, name := none, imageUrl := none,
               tokenUri := none } : LetterItem)).tokenId = tid := by
      intro tid
      cases getMeta tid <;> rfl
    have htr : ∀ a b c : String, tokenIdNumLe a b = true → tokenIdNumLe b c = true →
        tokenIdNumLe a c = true := by
      intro a b c hab hbc
      simp only [tokenIdNumLe, decide_eq_true_eq] at hab hbc ⊢
      omega
    have hto : ∀ a b : String, (tokenIdNumLe a b || tokenIdNumLe b a) = true := by
      intro a b
      simp only [tokenIdNumLe, Bool.or_eq_true, decide_eq_true_eq]
      omega
    refine (List.sorted_mergeSort htr hto ids).imp ?_
    intro a b h
    rw [hproj, hproj]
    simpa [tokenIdNumLe] using h

/-- C10 witness for the amended claim: the theorem applied at concrete
inputs of all three shapes and at a concrete letters list. -/
theorem parseAlchemyTokenIdToDecimal_amended_witness :
    parseAlchemyTokenIdToDecimal "0x1a" = some (Nat.repr 26) ∧
    parseAlchemyTokenIdToDecimal "1a" = some (Nat.repr 26) ∧
    parseAlchemyTokenIdToDecimal "26" = some (Nat.repr 26) ∧
    (routeLetters (fun _ => Except.error "meta") ["10", "2"]).Pairwise
      (fun a b => (jsBigInt a.tokenId).getD 0 ≤ (jsBigInt b.tokenId).getD 0) := by
  have h := parseAlchemyTokenIdToDecimal_amended
  exact ⟨h.1 "0x1a" ['1', 'a'] 26 (by decide) (by decide) (by decide),
    h.2.1 "1a" 26 (by decide) (by decide) (by decide) (by decide),
    h.2.2.1 "26" 26 (by decide) (by decide) (by decide),
    h.2.2.2 (fun _ => Except.error "meta") ["10", "2"]⟩

/-! ### Round-trip lemmas for the token-URI decoder (C4) -/

theorem b64DecChar_encChar : ∀ n, n < 64 → b64DecChar (b64EncChar n) = some n := by decide

theorem b64EncChar_ne_eq : ∀ n, n < 64 → b64EncChar n ≠ '=' := by decide

theorem atobGo_b64EncodeGo : ∀ (bs : List Nat), (∀ b ∈ bs, b < 256) →
    atobGo (b64EncodeGo bs) = some bs := by
  have hgo : ∀ (k : Nat) (bs : List Nat), bs.length ≤ k → (∀ b ∈ bs, b < 256) →
      atobGo (b64EncodeGo bs) = some bs := by
    intro k
    induction k with
    | zero =>
      intro bs hlen _
      have : bs = [] := List.length_eq_zero.mp (Nat.le_zero.mp hlen)
      subst this
      rfl
    | succ k ih =>
      intro bs hlen hb
      match bs with
      | [] => rfl
      | [b0] =>
        have h0 : b0 < 256 := hb b0 (by simp)
        rw [b64EncodeGo, atobGo]
        rw [b64DecChar_encChar _ (by omega), b64DecChar_encChar _ (by omega)]
        simp only [and_self, if_true]
        have : b0 / 4 * 4 + b0 % 4 * 16 / 16 = b0 := by omega
        rw [this]
      | [b0, b1] =>
        have h0 : b0 < 256 := hb b0 (by simp)
        have h1 : b1 < 256 := hb b1 (by simp)
        rw [b64EncodeGo, atobGo]
        rw [b64DecChar_encChar _ (by omega), b64DecChar_encChar _ (by omega)]
        simp only []
        rw [if_neg (b64EncChar_ne_eq _ (by omega))]
        rw [b64DecChar_encChar _ (by omega)]
        simp only [if_true]
        have e0 : b0 / 4 * 4 + (b0 % 4 * 16 + b1 / 16) / 16 = b0 := by omega
        have e1 : (b0 % 4 * 16 + b1 / 16) % 16 * 16 + b1 % 16 * 4 / 4 = b1 := by omega
        rw [e0, e1]
      | b0 :: b1 :: b2 :: rest =>
        have h0 : b0 < 256 := hb b0 (by simp)
        have h1 : b1 < 256 := hb b1 (by simp)
        have h2 : b2 < 256 := hb b2 (by simp)
        rw [b64EncodeGo, atobGo]
        rw [b64DecChar_encChar _ (by omega), b64DecChar_encChar _ (by omega)]
        simp only []
        rw [if_neg (b64EncChar_ne_eq _ (by omega))]
        rw [b64DecChar_encChar _ (by omega)]
        simp only []
        rw [if_neg (b64EncChar_ne_eq _ (by omega))]
        rw [b64DecChar_encChar _ (by omega)]
        simp only []
        rw [ih rest (by simp at hlen; omega) (fun b hbm => hb b (by simp [hbm]))]
        simp only []
        have e0 : b0 / 4 * 4 + (b0 % 4 * 16 + b1 / 16) / 16 = b0 := by omega
        have e1 : (b0 % 4 * 16 + b1 / 16) % 16 * 16 + (b1 % 16 * 4 + b2 / 64) / 4 = b1 := by
          omega
        have e2 : (b1 % 16 * 4 + b2 / 64) % 4 * 64 + b2 % 64 = b2 := by omega
        rw [e0, e1, e2]
  exact fun bs => hgo bs.length bs le_rfl

theorem hexVal_hexDigitChar : ∀ d, d < 16 → hexVal (hexDigitChar d) = some d := by decide

theorem percentDecode_encode : ∀ (bs : List Nat), (∀ b ∈ bs, b < 256) →
    percentDecode (percentEncodeBytes bs) = some bs := by
  intro bs
  induction bs with
  | nil => intro _; rfl
  | cons b bs ih =>
    intro hb
    have hblt : b < 256 := hb b (by simp)
    have hrest := ih (fun x hx => hb x (by simp [hx]))
    rw [percentEncodeBytes] at hrest ⊢
    simp only [List.map_cons, List.flatten_cons, List.cons_append, List.nil_append]
    rw [percentDecode]
    rw [hexVal_hexDigitChar _ (by omega), hexVal_hexDigitChar _ (by omega)]
    simp only []
    rw [hrest]
    simp only []
    have : b / 16 * 16 + b % 16 = b := by omega
    rw [this]

theorem utf8DecodeStep_encodeChar (n : Nat)
    (hval : n < 55296 ∨ (57343 < n ∧ n < 1114112)) (rest : List Nat) :
    ∃ b0 tl, utf8EncodeChar n = b0 :: tl ∧
      utf8DecodeStep b0 (tl ++ rest) = some (n, rest) := by
  rw [utf8EncodeChar]
  by_cases h1 : n < 128
  · refine ⟨n, [], by rw [if_pos h1], ?_⟩
    rw [utf8DecodeStep.eq_def, if_pos h1]
    rw [List.nil_append]
  · rw [if_neg h1]
    by_cases h2 : n < 2048
    · rw [if_pos h2]
      refine ⟨_, _, rfl, ?_⟩
      rw [utf8DecodeStep.eq_def]
      rw [if_neg (by omega), if_neg (by omega), if_pos (by omega)]
      simp only [List.cons_append]
      rw [if_pos (by omega)]
      congr 2
      omega
    · rw [if_neg h2]
      by_cases h3 : n < 65536
      · rw [if_pos h3]
        refine ⟨_, _, rfl, ?_⟩
        rw [utf8DecodeStep.eq_def]
        rw [if_neg (by omega), if_neg (by omega), if_neg (by omega), if_pos (by omega)]
        simp only [List.cons_append]
        rw [if_pos (by omega)]
        rw [if_neg (by omega)]
        congr 2
        omega
      · rw [if_neg h3]
        refine ⟨_, _, rfl, ?_⟩
        rw [utf8DecodeStep.eq_def]
        rw [if_neg (by omega), if_neg (by omega), if_neg (by omega), if_neg (by omega),
          if_pos (by omega)]
        simp only [List.cons_append]
        rw [if_pos (by omega)]
        rw [if_neg (by omega)]
        congr 2
        omega

theorem utf8DecodeLoop_encodeChar (f : Nat) (n : Nat)
    (hval : n < 55296 ∨ (57343 < n ∧ n < 1114112)) (rest : List Nat) :
    utf8DecodeLoop (f + 1) (utf8EncodeChar n ++ rest) =
      (utf8DecodeLoop f rest).map (fun cs => Char.ofNat n :: cs) := by
  obtain ⟨b0, tl, henc, hstep⟩ := utf8DecodeStep_encodeChar n hval rest
  rw [henc]
  simp only [List.cons_append]
  rw [utf8DecodeLoop, hstep]

theorem utf8DecodeLoop_utf8Encode : ∀ (cs : List Char) (f : Nat), cs.length ≤ f →
    utf8DecodeLoop f ((cs.map (fun c => utf8EncodeChar c.toNat)).flatten) = some cs := by
  intro cs
  induction cs with
  | nil =>
    intro f _
    cases f <;> rfl
  | cons c cs ih =>
    intro f hf
    cases f with
    | zero => simp at hf
    | succ f =>
      simp only [List.map_cons, List.flatten_cons]
      have hval : c.toNat < 55296 ∨ (57343 < c.toNat ∧ c.toNat < 1114112) := c.valid
      rw [utf8DecodeLoop_encodeChar f c.toNat hval]
      rw [ih f (by simpa using hf)]
      simp [Char.ofNat_toNat]

theorem utf8EncodeChar_length_pos (n : Nat) : 0 < (utf8EncodeChar n).length := by
  rw [utf8EncodeChar]
  split
  · simp
  · split
    · simp
    · split <;> simp

theorem utf8EncodeChar_lt_256 (n : Nat) (hn : n < 1114112) :
    ∀ b ∈ utf8EncodeChar n, b < 256 := by
  intro b hb
  rw [utf8EncodeChar] at hb
  by_cases h1 : n < 128
  · rw [if_pos h1] at hb
    simp at hb
    omega
  · rw [if_neg h1] at hb
    by_cases h2 : n < 2048
    · rw [if_pos h2] at hb
      simp at hb
      rcases hb with h | h <;> omega
    · rw [if_neg h2] at hb
      by_cases h3 : n < 65536
      · rw [if_pos h3] at hb
        simp at hb
        rcases hb with h | h | h <;> omega
      · rw [if_neg h3] at hb
        simp at hb
        rcases hb with h | h | h | h <;> omega

theorem utf8Encode_lt_256 (s : String) : ∀ b ∈ utf8Encode s, b < 256 := by
  intro b hb
  rw [utf8Encode] at hb
  obtain ⟨l, hl, hbl⟩ := List.mem_flatten.mp hb
  obtain ⟨c, _, hcl⟩ := List.mem_map.mp hl
  have hval : c.toNat < 1114112 := by
    rcases c.valid with h | h
    · exact Nat.lt_trans h (by norm_num)
    · exact h.2
  exact utf8EncodeChar_lt_256 c.toNat hval b (hcl ▸ hbl)

theorem length_le_utf8Encode_length (s : String) :
    s.data.length ≤ (utf8Encode s).length := by
  rw [utf8Encode]
  induction s.data with
  | nil => simp
  | cons c cs ih =>
    simp only [List.map_cons, List.flatten_cons, List.length_append, List.length_cons]
    have := utf8EncodeChar_length_pos c.toNat
    omega

theorem utf8DecodeGo_utf8Encode (s : String) :
    utf8DecodeGo (utf8Encode s) = some s.data := by
  rw [utf8DecodeGo]
  have hlen := length_le_utf8Encode_length s
  calc utf8DecodeLoop (utf8Encode s).length (utf8Encode s)
      = utf8DecodeLoop (utf8Encode s).length
          ((s.data.map (fun c => utf8EncodeChar c.toNat)).flatten) := rfl
    _ = some s.data := utf8DecodeLoop_utf8Encode s.data _ hlen

/-- C4: for every Unicode string `s`, `decodeBase64ToString` applied to the
standard base64 encoding of the UTF-8 bytes of `s` reproduces `s` exactly —
each decoded byte is re-expressed as a 2-digit hex percent escape and the
escape string is decoded as UTF-8 text, so multi-byte sequences survive. -/
theorem decodeBase64ToString_utf8_roundtrip (s : String) :
    decodeBase64ToString (b64Encode (utf8Encode s)) = some s := by
  have hbytes := utf8Encode_lt_256 s
  have hatob : atobModel (b64Encode (utf8Encode s)) = some (utf8Encode s) := by
    rw [show atobModel (b64Encode (utf8Encode s)) =
      atobGo (b64EncodeGo (utf8Encode s)) from rfl]
    exact atobGo_b64EncodeGo _ hbytes
  rw [decodeBase64ToString, hatob, Option.some_bind]
  rw [decodeURIComponentModel, percentDecode_encode _ hbytes, Option.some_bind]
  rw [utf8DecodeGo_utf8Encode, Option.map_some']

end LetterSkull
